import Mathlib

/-!
Verification of the chrust Chord-style distributed key-value node.

This file gives a shallow embedding of the ring arithmetic (src/hash.rs),
the node-local state and Chord operations (src/node.rs), and the message
handler fragments (src/handler.rs) that the checked claims are about, and
proves or refutes each claim.

Modelling conventions:
- Rust i32 values are embedded as Int (the operations involved never
  overflow 32 bits: ring ids live in the interval from 0 to 255).
- Rust HashMap is embedded as an association list with unique keys; the
  HashMap iteration order, which is unspecified in Rust, becomes the list
  order of the model.
- Rust Vec indexing that can go out of bounds (and so abort the process)
  is embedded with Option-valued operations: a result of none models the
  out-of-bounds abort, some models normal completion.
-/

namespace Chrust

/-- Ring size exponent, src/handler.rs line 21: the ring has 2 to the M keys. -/
def M : Nat := 8

/-- Missed pongs tolerated before a successor is declared failed,
src/handler.rs line 23. -/
def FAILURE_THRESHOLD : Int := 2

/-- Ring-interval membership from src/hash.rs, function in_range: clockwise
membership of id in the interval from min to max, with optionally inclusive
upper bound; the whole ring when min equals max. -/
def in_range (id min max : Int) (incl : Bool) : Bool :=
  if min < max then
    if incl then decide (id > min) && decide (id ≤ max)
    else decide (id > min) && decide (id < max)
  else if max < min then
    if incl then decide (id > min) || decide (id ≤ max)
    else decide (id > min) || decide (id < max)
  else true

/-! SHA-1, as used by src/hash.rs through the external sha1 crate.
The hash of a key is the last byte of the 20-byte SHA-1 digest of the
UTF-8 encoding of the key. The digest computation below operates on lists
of byte values (Nat below 256) and 32-bit words (Nat below 2 to the 32). -/

/-- Left rotation of a 32-bit word by n bits. -/
def rotl32 (n x : Nat) : Nat :=
  ((x <<< n) % 2 ^ 32) + (x >>> (32 - n))

/-- UTF-8 encoding of a single Unicode code point as a list of bytes. -/
def utf8EncodeChar (c : Nat) : List Nat :=
  if c < 0x80 then [c]
  else if c < 0x800 then [0xC0 + c / 64, 0x80 + c % 64]
  else if c < 0x10000 then
    [0xE0 + c / 4096, 0x80 + (c / 64) % 64, 0x80 + c % 64]
  else
    [0xF0 + c / 262144, 0x80 + (c / 4096) % 64, 0x80 + (c / 64) % 64,
     0x80 + c % 64]

/-- UTF-8 bytes of a string. -/
def strBytes (s : String) : List Nat :=
  (s.data.map (fun ch => utf8EncodeChar ch.toNat)).flatten

/-- Eight big-endian bytes of a 64-bit length value. -/
def beBytes8 (n : Nat) : List Nat :=
  [(n >>> 56) % 256, (n >>> 48) % 256, (n >>> 40) % 256, (n >>> 32) % 256,
   (n >>> 24) % 256, (n >>> 16) % 256, (n >>> 8) % 256, n % 256]

/-- Number of zero bytes of SHA-1 padding for a message of length len. -/
def sha1PadLen (len : Nat) : Nat :=
  (64 + 56 - ((len + 1) % 64)) % 64

/-- Split a byte list into chunks of 64 bytes. -/
def chunks64 : List Nat → List (List Nat)
  | [] => []
  | a :: t => (a :: t).take 64 :: chunks64 (t.drop 63)
termination_by l => l.length
decreasing_by
  simp only [List.length_drop, List.length_cons]
  omega

/-- Big-endian 32-bit words of a byte list. -/
def toWords : List Nat → List Nat
  | a :: b :: c :: d :: rest =>
      (((a * 256 + b) * 256 + c) * 256 + d) :: toWords rest
  | _ => []

/-- Extend the 16-word schedule of a chunk by k further words. -/
def extendWords (w : List Nat) : Nat → List Nat
  | 0 => w
  | k + 1 =>
    let w2 := extendWords w k
    let i := w2.length
    w2 ++ [rotl32 1 ((w2.getD (i - 3) 0) ^^^ (w2.getD (i - 8) 0) ^^^
                     (w2.getD (i - 14) 0) ^^^ (w2.getD (i - 16) 0))]

/-- One SHA-1 round at position t. -/
def sha1Round (t : Nat) (st : Nat × Nat × Nat × Nat × Nat) (wt : Nat) :
    Nat × Nat × Nat × Nat × Nat :=
  let (a, b, c, d, e) := st
  let f :=
    if t < 20 then (b &&& c) ||| ((b ^^^ 0xFFFFFFFF) &&& d)
    else if t < 40 then b ^^^ c ^^^ d
    else if t < 60 then (b &&& c) ||| (b &&& d) ||| (c &&& d)
    else b ^^^ c ^^^ d
  let k :=
    if t < 20 then 0x5A827999
    else if t < 40 then 0x6ED9EBA1
    else if t < 60 then 0x8F1BBCDC
    else 0xCA62C1D6
  let temp := (rotl32 5 a + f + e + k + wt) % 2 ^ 32
  (temp, a, rotl32 30 b, c, d)

/-- Absorb one 64-byte chunk into the SHA-1 state. -/
def sha1Chunk (h : Nat × Nat × Nat × Nat × Nat) (chunk : List Nat) :
    Nat × Nat × Nat × Nat × Nat :=
  let w := extendWords (toWords chunk) 64
  let (a, b, c, d, e) :=
    (List.range 80).foldl (fun st t => sha1Round t st (w.getD t 0)) h
  let (h0, h1, h2, h3, h4) := h
  ((h0 + a) % 2 ^ 32, (h1 + b) % 2 ^ 32, (h2 + c) % 2 ^ 32,
   (h3 + d) % 2 ^ 32, (h4 + e) % 2 ^ 32)

/-- SHA-1 state words of a byte message after padding and absorption. -/
def sha1Hs (msg : List Nat) : Nat × Nat × Nat × Nat × Nat :=
  let padded :=
    msg ++ 0x80 :: (List.replicate (sha1PadLen msg.length) 0 ++
      beBytes8 (8 * msg.length))
  (chunks64 padded).foldl sha1Chunk
    (0x67452301, 0xEFCDAB89, 0x98BADCFE, 0x10325476, 0xC3D2E1F0)

/-- Key hash from src/hash.rs, function hash: the last byte of the SHA-1
digest of the key, as a ring id. The last digest byte is the low byte of
the fifth state word. -/
def hash (key : String) : Int :=
  Int.ofNat ((sha1Hs (strBytes key)).2.2.2.2 % 256)

/-! Node state, src/node.rs. -/

/-- Node metadata, src/node.rs struct NodeEntry: a ring id and a name. -/
structure NodeEntry where
  id : Int
  node_name : String
deriving DecidableEq, Repr

/-- Constructor NodeEntry::new. -/
def NodeEntry.new (id : Int) (node_name : String) : NodeEntry :=
  ⟨id, node_name⟩

/-- Finger data, src/node.rs struct FingerEntry: interval start and node. -/
structure FingerEntry where
  start : Int
  node : NodeEntry
deriving DecidableEq, Repr

/-- Constructor FingerEntry::new. -/
def FingerEntry.new (start : Int) (id : Int) (node_name : String) :
    FingerEntry :=
  ⟨start, NodeEntry.new id node_name⟩

/-- Successor metadata, src/node.rs struct SuccessorEntry. -/
structure SuccessorEntry where
  node : NodeEntry
  failed : Bool
deriving DecidableEq, Repr

/-- Constructor SuccessorEntry::new: a fresh entry starts out failed. -/
def SuccessorEntry.new (id : Int) (node_name : String) : SuccessorEntry :=
  ⟨NodeEntry.new id node_name, true⟩

/-- Key-query kinds, src/node.rs enum QueryType. -/
inductive QueryType where
  | JoinAck : QueryType
  | FixFinger : QueryType
  | Get : String → QueryType
  | Set : String → String → QueryType
  | FixSuccessor : QueryType
deriving DecidableEq, Repr

/-- Key-transfer directives, src/node.rs enum TransferType. -/
inductive TransferType where
  | Get : Int → Int → TransferType
  | Send : Int → Int → String → TransferType
  | Duplicate : TransferType
  | Nothing : TransferType
deriving DecidableEq, Repr

/-- A string-keyed store: the model of HashMap of String to String. -/
abbrev Store := List (String × String)

/-- Local node storage, src/node.rs struct Node. -/
structure Node where
  id : NodeEntry
  finger_table : List FingerEntry
  successor : NodeEntry
  predecessor : Option NodeEntry
  successor_list : List SuccessorEntry
  store : Store
  replica_store : List (Int × Store)
  current_queries : List (Int × QueryType)
  last_failed_successor : Option SuccessorEntry
deriving DecidableEq, Repr

/-! Association-list operations standing in for HashMap lookup, removal
and insertion (insertion overwrites an existing binding of the key). -/

/-- Lookup of a key in a store. -/
def storeLookup : Store → String → Option String
  | [], _ => none
  | (k2, v) :: t, k => if k2 = k then some v else storeLookup t k

/-- Removal of the first binding of a key from a store. -/
def storeErase : Store → String → Store
  | [], _ => []
  | (k2, v) :: t, k => if k2 = k then t else (k2, v) :: storeErase t k

/-- Insertion of a binding, overwriting any existing binding of the key. -/
def storeInsert (k v : String) (s : Store) : Store :=
  (k, v) :: storeErase s k

/-- HashMap extend: insert every binding of the second store into the
first, overwriting. -/
def storeExtend (st : Store) (kvs : Store) : Store :=
  kvs.foldl (fun s kv => storeInsert kv.1 kv.2 s) st

/-- Lookup of a query id in the pending-query table. -/
def queryLookup : List (Int × QueryType) → Int → Option QueryType
  | [], _ => none
  | (q2, t) :: rest, q => if q2 = q then some t else queryLookup rest q

/-- Removal of a query id from the pending-query table. -/
def queryErase : List (Int × QueryType) → Int → List (Int × QueryType)
  | [], _ => []
  | (q2, t) :: rest, q => if q2 = q then rest else (q2, t) :: queryErase rest q

/-- Insertion of a pending query, overwriting any entry with the same id. -/
def queryInsert (q : Int) (t : QueryType) (l : List (Int × QueryType)) :
    List (Int × QueryType) :=
  (q, t) :: queryErase l q

/-- In-place update of the list element at an index; indices past the end
leave the list unchanged (the Rust original aborts there instead, and the
claims only exercise in-bounds indices). -/
def listModify {α : Type} (f : α → α) : Nat → List α → List α
  | _, [] => []
  | 0, x :: xs => f x :: xs
  | n + 1, x :: xs => x :: listModify f n xs

/-! Chord operations on Node, src/node.rs impl Node. Operations that index
a vector return Option: none models the Rust out-of-bounds abort. -/

/-- Constructor Node::new: a node initialized as if alone in the ring,
with m finger entries and tau successor entries. -/
def Node.new (m : Nat) (node_name : String) (id : Int) (tau : Nat) : Node :=
  { id := NodeEntry.new id node_name
    finger_table :=
      (List.range m).map (fun i =>
        FingerEntry.new ((id + 2 ^ i) % 2 ^ m) id node_name)
    successor := NodeEntry.new id node_name
    predecessor := some (NodeEntry.new id node_name)
    successor_list := List.replicate tau (SuccessorEntry.new id node_name)
    store := []
    replica_store := []
    current_queries := []
    last_failed_successor := none }

/-- Node::get: value for a key in the local store, if present. -/
def Node.get (n : Node) (key : String) : Option String :=
  storeLookup n.store key

/-- Node::set: store a key and value locally. -/
def Node.set (n : Node) (key value : String) : Node :=
  { n with store := storeInsert key value n.store }

/-- Node::get_successor: a copy of the current successor. -/
def Node.get_successor (n : Node) : NodeEntry :=
  NodeEntry.new n.successor.id n.successor.node_name

/-- Node::get_id: the ring id of this node. -/
def Node.get_id (n : Node) : Int :=
  n.id.id

/-- Node::set_successor: set the successor, mirror it into finger table
entry 0 and successor list entry 0, and clear the failed flag of that entry.
none models the abort when either vector is empty. -/
def Node.set_successor? (n : Node) (succ : NodeEntry) : Option Node :=
  match n.finger_table, n.successor_list with
  | f :: ft, s :: sl =>
    some { n with
      finger_table := { f with node := NodeEntry.new succ.id succ.node_name } :: ft
      successor_list :=
        { s with node := NodeEntry.new succ.id succ.node_name, failed := false } :: sl
      successor := succ }
  | _, _ => none

/-- Node::get_predecessor. -/
def Node.get_predecessor (n : Node) : Option NodeEntry :=
  match n.predecessor with
  | some pred => some (NodeEntry.new pred.id pred.node_name)
  | none => none

/-- Node::set_predecessor: install a new predecessor and report which key
transfer the handler must perform. -/
def Node.set_predecessor (n : Node) (pred : Option NodeEntry) :
    Node × TransferType :=
  match n.predecessor with
  | none =>
    match pred with
    | some new_pred =>
      ({ n with predecessor := some (NodeEntry.new new_pred.id new_pred.node_name) },
       TransferType.Get new_pred.id n.id.id)
    | none => (n, TransferType.Nothing)
  | some old_pred =>
    match pred with
    | some new_pred =>
      let old_id := old_pred.id
      let n2 :=
        { n with predecessor := some (NodeEntry.new new_pred.id new_pred.node_name) }
      if new_pred.node_name ≠ n.id.node_name then
        (n2, TransferType.Send old_id new_pred.id new_pred.node_name)
      else
        (n2, TransferType.Nothing)
    | none => ({ n with predecessor := none }, TransferType.Nothing)

/-- Node::push_query: record an outstanding query. -/
def Node.push_query (n : Node) (query : Int) (t : QueryType) : Node :=
  { n with current_queries := queryInsert query t n.current_queries }

/-- Node::pop_query: retrieve and remove an outstanding query. -/
def Node.pop_query (n : Node) (query : Int) : Option QueryType × Node :=
  (queryLookup n.current_queries query,
   { n with current_queries := queryErase n.current_queries query })

/-- Node::stabilize_successor: adopt the predecessor reported by the successor as the new
successor when its id falls strictly between this node and the successor. -/
def Node.stabilize_successor? (n : Node) (pred_id : Int) (pred_name : String) :
    Option Node :=
  if in_range pred_id n.id.id n.successor.id false then
    n.set_successor? (NodeEntry.new pred_id pred_name)
  else
    some n

/-- Node::transfer_from_replicas: merge into the primary store every locally
held replica whose owner id falls in the clockwise interval from min to max
with inclusive upper bound. -/
def Node.transfer_from_replicas (n : Node) (min max : Int) : Node :=
  { n with
    store := n.replica_store.foldl
      (fun st r => if in_range r.1 min max true then storeExtend st r.2 else st)
      n.store }

/-- Node::stabilize_predecessor: react to a node claiming to be the new
predecessor, returning the updated node and a transfer directive. -/
def Node.stabilize_predecessor (n : Node) (node_id : Int) (node_name : String)
    (failed : Bool) : Node × TransferType :=
  match n.predecessor with
  | some pred =>
    if failed then
      let idv := pred.id
      let n2 := n.transfer_from_replicas node_id idv
      ({ n2 with predecessor := some (NodeEntry.new node_id node_name) },
       TransferType.Duplicate)
    else if in_range node_id pred.id n.id.id false then
      n.set_predecessor (some (NodeEntry.new node_id node_name))
    else
      (n, TransferType.Nothing)
  | none => n.set_predecessor (some (NodeEntry.new node_id node_name))

/-- Node::set_finger: replace the node of finger table entry i. The Rust
index is an i32 cast to usize, so a negative or too-large index aborts,
modelled by none. -/
def Node.set_finger? (n : Node) (i : Int) (node : NodeEntry) : Option Node :=
  if 0 ≤ i ∧ i.toNat < n.finger_table.length then
    some { n with
      finger_table :=
        listModify (fun f => { f with node := node }) i.toNat n.finger_table }
  else
    none

/-- Node::fix_successor: refresh successor list entry i and report whether
that successor should receive a fresh replica: true iff the name changed or
the entry was failed, and the new name is not this node. Out-of-bounds i is
the abort, modelled by none. -/
def Node.fix_successor? (n : Node) (i : Int) (succ : NodeEntry) :
    Option (Bool × Node) :=
  if 0 ≤ i then
    match n.successor_list[i.toNat]? with
    | some entry =>
      let old_succ := entry.node.node_name
      let was_failed := entry.failed
      some (((old_succ != succ.node_name || was_failed) &&
               succ.node_name != n.id.node_name),
            { n with
              successor_list :=
                listModify (fun e => { e with node := succ, failed := false })
                  i.toNat n.successor_list })
    | none => none
  else
    none

/-- Node::successor_failure: remember the removed head of the successor
list as the last failed successor, shift the list left, append a fresh
self-entry at the tail, and activate the new head as successor. none
models the abort when the successor list or finger table is empty. -/
def Node.successor_failure? (n : Node) : Option Node :=
  match n.successor_list with
  | [] => none
  | e :: rest =>
    let n2 := { n with
      last_failed_successor := some e
      successor_list := rest ++ [SuccessorEntry.new n.id.id n.id.node_name] }
    match n2.successor_list.head? with
    | some h => n2.set_successor? (NodeEntry.new h.node.id h.node.node_name)
    | none => none

/-- Node::transfer_kvs_range, second loop: remove each listed key from the
store, collecting the removed values in order. -/
def extractValues : List String → Store → List String × Store
  | [], s => ([], s)
  | k :: ks, s =>
    match storeLookup s k with
    | some v =>
      let r := extractValues ks (storeErase s k)
      (v :: r.1, r.2)
    | none => extractValues ks s

/-- Node::transfer_kvs_range: remove every entry whose hashed key is in the
clockwise interval from min to max with inclusive upper bound, returning
the removed keys and values as matched-order vectors. -/
def Node.transfer_kvs_range (n : Node) (min max : Int) :
    (List String × List String) × Node :=
  let keys :=
    (n.store.map Prod.fst).filter (fun k => in_range (hash k) min max true)
  let r := extractValues keys n.store
  ((keys, r.1), { n with store := r.2 })

/-- Node::duplicate_store: the keys and values of the whole primary store. -/
def Node.duplicate_store (n : Node) : List String × List String :=
  (n.store.map Prod.fst, n.store.map Prod.snd)

/-- Scan of Node::closest_preceding_finger: walk finger indices from fuel
minus one down to zero and return the first finger strictly inside the
interval from the node id to the queried id. A missing index (which in
Rust is an abort, never reached on a full finger table) is skipped. -/
def cpfScan (ft : List FingerEntry) (selfId qid : Int) : Nat → Option NodeEntry
  | 0 => none
  | i + 1 =>
    match ft[i]? with
    | some f =>
      if in_range f.node.id selfId qid false then
        some (NodeEntry.new f.node.id f.node.node_name)
      else
        cpfScan ft selfId qid i
    | none => cpfScan ft selfId qid i

/-- Node::closest_preceding_finger: scan fingers M-1 down to 0; fall back
to this node itself when no finger qualifies. -/
def Node.closest_preceding_finger (n : Node) (id : Int) : NodeEntry :=
  match cpfScan n.finger_table n.id.id id M with
  | some e => e
  | none => NodeEntry.new n.id.id n.id.node_name

/-- Node::find_predecessor: answer whether the queried id is owned by the
current successor, and otherwise which finger to route the query to. -/
def Node.find_predecessor (n : Node) (id : Int) : Bool × NodeEntry :=
  if in_range id n.id.id n.successor.id true then
    (true, NodeEntry.new n.id.id n.id.node_name)
  else
    (false, n.closest_preceding_finger id)

/-- Node::get_failed_successor. -/
def Node.get_failed_successor (n : Node) : Option NodeEntry :=
  match n.last_failed_successor with
  | some fail => some (NodeEntry.new fail.node.id fail.node.node_name)
  | none => none

/-- Node::set_for_replica: install a replica store for an owner id. -/
def Node.set_for_replica (n : Node) (id : Int) (kvs : Store) : Node :=
  { n with replica_store := (id, kvs) :: n.replica_store.filter (·.1 ≠ id) }

/-! Message handler, src/handler.rs. Outbound messages are modelled as
values of the Msg type, mirroring the constructors of src/msg.rs that the
checked claims mention; a handler step returns the emitted messages in
emission order. -/

/-- Outbound wire messages from src/msg.rs used by the claims. Field order
follows the new constructors of the corresponding structs. -/
inductive Msg where
  | ping : String → String → Msg
  | notify : String → String → Int → Bool → Msg
  | getSuccessResponse : Int → String → String → Msg
  | getFailResponse : Int → String → Msg
  | retrieve : String → String → String → Int → Msg
  | storeMsg : String → String → String → String → Msg
  | duplicateMsg : String → String → Int → List String → List String → Msg
deriving DecidableEq, Repr

/-- Constructor GetFailResponse::new from src/msg.rs: the error field is
the text No such key followed by the key. -/
def GetFailResponse.new (id : Int) (key : String) : Msg :=
  Msg.getFailResponse id ("No such key: " ++ key)

/-- Handler state, src/handler.rs struct HandlerInner. The two ZeroMQ
sockets are not part of the model; emitted messages are returned instead. -/
structure HandlerInner where
  connected : Bool
  node_name : String
  peer_names : List String
  node : Node
  pings : Int
deriving DecidableEq, Repr

/-- Successor-list length from src/handler.rs Handler::new: the ceiling of
the base-two logarithm of the peer count plus one. The source computes
this with 64-bit floating point, which is exact at the integer points the
claims use. -/
def tauOfPeers (peer_names : List String) : Nat :=
  Nat.clog 2 (peer_names.length + 1)

/-- HandlerInner::ping_successor: below the failure threshold and with a
successor other than this node, count one more missed ping and emit a ping;
at the threshold, rotate the successor list, notify the new successor with
the failed flag set, and reset the missed-ping count. -/
def HandlerInner.ping_successor (h : HandlerInner) :
    Option (HandlerInner × List Msg) :=
  if h.pings < FAILURE_THRESHOLD then
    let successor := h.node.get_successor
    if successor.node_name ≠ h.node_name then
      some ({ h with pings := h.pings + 1 },
            [Msg.ping h.node_name successor.node_name])
    else
      some (h, [])
  else
    match h.node.successor_failure? with
    | some node2 =>
      let new_successor := node2.get_successor
      some ({ h with node := node2, pings := 0 },
            [Msg.notify h.node_name new_successor.node_name node2.get_id true])
    | none => none

/-- The retrieve arm of HandlerInner::handle_messages: answer a get for a
key from the local store, emitting exactly one success or failure
response. -/
def HandlerInner.handle_retrieve (h : HandlerInner) (id : Int) (k : String) :
    HandlerInner × List Msg :=
  match h.node.get k with
  | some v => (h, [Msg.getSuccessResponse id k v])
  | none => (h, [GetFailResponse.new id k])

/-- The findSuccResponse arm of HandlerInner::handle_messages: pop the
pending query for the query id and dispatch on its kind. none models the
aborts of the vector-indexing operations invoked by some kinds. -/
def HandlerInner.handle_find_succ_response (h : HandlerInner)
    (node_name : String) (node_id : Int) (query_id : Int) (id : Option Int) :
    Option (HandlerInner × List Msg) :=
  let r := h.node.pop_query query_id
  let h1 := { h with node := r.2 }
  match r.1 with
  | some QueryType.JoinAck =>
    match h1.node.set_successor? (NodeEntry.new node_id node_name) with
    | some node2 => some ({ h1 with node := node2 }, [])
    | none => none
  | some QueryType.FixFinger =>
    match id with
    | some i =>
      match h1.node.set_finger? i (NodeEntry.new node_id node_name) with
      | some node2 => some ({ h1 with node := node2 }, [])
      | none => none
    | none => some (h1, [])
  | some (QueryType.Get k) =>
    match id with
    | some i => some (h1, [Msg.retrieve h.node_name node_name k i])
    | none => some (h1, [])
  | some (QueryType.Set k v) =>
    some (h1, [Msg.storeMsg h.node_name node_name k v])
  | some QueryType.FixSuccessor =>
    match id with
    | some i =>
      match h1.node.fix_successor? i (NodeEntry.new node_id node_name) with
      | some br =>
        if br.1 then
          let kv := br.2.duplicate_store
          some ({ h1 with node := br.2 },
                [Msg.duplicateMsg h.node_name node_name br.2.get_id kv.1 kv.2])
        else
          some ({ h1 with node := br.2 }, [])
      | none => none
    | none => some (h1, [])
  | none => some (h1, [])

/-! Reachability: the node states produced from initialization by the
Node-mutating operations that the handler and the stabilizer invoke on the
successor structures. Initialization uses M finger entries and at least one
successor entry; the finger and successor indices passed by the handler to
set_finger and fix_successor are always at least one (fix_fingers draws
from one to M minus one, fix_successors targets a live index plus one). -/

/-- Reachable node states. Each mutating step requires the operation to
complete without an abort. -/
inductive Reachable : Node → Prop where
  | init (name : String) (id : Int) (tau : Nat) (htau : 1 ≤ tau) :
      Reachable (Node.new M name id tau)
  | set_successor {n n' : Node} (succ : NodeEntry) :
      Reachable n → n.set_successor? succ = some n' → Reachable n'
  | stabilize_successor {n n' : Node} (pid : Int) (pname : String) :
      Reachable n → n.stabilize_successor? pid pname = some n' → Reachable n'
  | successor_failure {n n' : Node} :
      Reachable n → n.successor_failure? = some n' → Reachable n'
  | set_finger {n n' : Node} (i : Int) (node : NodeEntry) (hi : 1 ≤ i) :
      Reachable n → n.set_finger? i node = some n' → Reachable n'
  | fix_successor {n n' : Node} (i : Int) (succ : NodeEntry) (b : Bool)
      (hi : 1 ≤ i) :
      Reachable n → n.fix_successor? i succ = some (b, n') → Reachable n'

/-! Supporting lemmas. -/

/-- An interval with equal endpoints is the whole ring. -/
lemma in_range_self_self (idv a : Int) (incl : Bool) :
    in_range idv a a incl = true := by
  simp [in_range]

/-- The element at index zero is the head. -/
lemma getElem?_zero_eq_head? {α : Type} (l : List α) : l[0]? = l.head? := by
  cases l <;> simp

/-- A none result of the finger scan means no scanned finger qualifies. -/
lemma cpfScan_none {ft : List FingerEntry} {s q : Int} :
    ∀ {m : Nat}, cpfScan ft s q m = none →
      ∀ i, i < m → ∀ f, ft[i]? = some f → in_range f.node.id s q false = false := by
  intro m
  induction m with
  | zero => intro _ i hi; omega
  | succ m ih =>
    intro h i hi f hf
    rcases Nat.lt_succ_iff_lt_or_eq.mp hi with hlt | rfl
    · cases hm : ft[m]? with
      | some g =>
        simp only [cpfScan, hm] at h
        split at h
        · exact absurd h (by simp)
        · exact ih h i hlt f hf
      | none =>
        simp only [cpfScan, hm] at h
        exact ih h i hlt f hf
    · cases hm : ft[i]? with
      | some g =>
        simp only [cpfScan, hm] at h
        rw [hf] at hm
        cases hm
        split at h
        · exact absurd h (by simp)
        · simp_all
      | none => rw [hf] at hm; cases hm

/-- If no scanned finger qualifies, the finger scan returns none. -/
lemma cpfScan_eq_none {ft : List FingerEntry} {s q : Int} :
    ∀ {m : Nat},
      (∀ i, i < m → ∀ f, ft[i]? = some f → in_range f.node.id s q false = false) →
      cpfScan ft s q m = none := by
  intro m
  induction m with
  | zero => intro _; rfl
  | succ m ih =>
    intro h
    cases hm : ft[m]? with
    | some g =>
      simp only [cpfScan, hm]
      have hg := h m (Nat.lt_succ_self m) g hm
      rw [hg]
      simp only [Bool.false_eq_true, if_false]
      exact ih (fun i hi f hf => h i (Nat.lt_succ_of_lt hi) f hf)
    | none =>
      simp only [cpfScan, hm]
      exact ih (fun i hi f hf => h i (Nat.lt_succ_of_lt hi) f hf)

/-- A some result of the finger scan is the qualifying finger of highest
scanned index. -/
lemma cpfScan_some {ft : List FingerEntry} {s q : Int} {e : NodeEntry} :
    ∀ {m : Nat}, cpfScan ft s q m = some e →
      ∃ i, i < m ∧ ∃ f, ft[i]? = some f ∧
        in_range f.node.id s q false = true ∧
        e = NodeEntry.new f.node.id f.node.node_name ∧
        ∀ j, i < j → j < m → ∀ g, ft[j]? = some g →
          in_range g.node.id s q false = false := by
  intro m
  induction m with
  | zero => intro h; cases h
  | succ m ih =>
    intro h
    cases hm : ft[m]? with
    | some g =>
      simp only [cpfScan, hm] at h
      by_cases hg : in_range g.node.id s q false = true
      · rw [if_pos hg] at h
        cases h
        exact ⟨m, Nat.lt_succ_self m, g, hm, hg, rfl, fun j hj1 hj2 => by omega⟩
      · rw [if_neg hg] at h
        obtain ⟨i, hi, f, hf, hfr, he, hmax⟩ := ih h
        refine ⟨i, Nat.lt_succ_of_lt hi, f, hf, hfr, he, ?_⟩
        intro j hj1 hj2 g2 hg2
        rcases Nat.lt_succ_iff_lt_or_eq.mp hj2 with hjlt | rfl
        · exact hmax j hj1 hjlt g2 hg2
        · rw [hg2] at hm; cases hm
          simpa using hg
    | none =>
      simp only [cpfScan, hm] at h
      obtain ⟨i, hi, f, hf, hfr, he, hmax⟩ := ih h
      refine ⟨i, Nat.lt_succ_of_lt hi, f, hf, hfr, he, ?_⟩
      intro j hj1 hj2 g2 hg2
      rcases Nat.lt_succ_iff_lt_or_eq.mp hj2 with hjlt | rfl
      · exact hmax j hj1 hjlt g2 hg2
      · rw [hg2] at hm; cases hm

/-- Erasing one key leaves lookups of other keys unchanged. -/
lemma storeLookup_erase_ne {s : Store} {k k2 : String} (h : k2 ≠ k) :
    storeLookup (storeErase s k) k2 = storeLookup s k2 := by
  induction s with
  | nil => rfl
  | cons kv t ih =>
    obtain ⟨k3, v⟩ := kv
    simp only [storeErase]
    by_cases h3 : k3 = k
    · rw [if_pos h3]
      have hne : k3 ≠ k2 := fun hh => h (hh ▸ h3)
      simp only [storeLookup, if_neg hne]
    · rw [if_neg h3]
      simp only [storeLookup]
      by_cases h4 : k3 = k2
      · rw [if_pos h4, if_pos h4]
      · rw [if_neg h4, if_neg h4, ih]

/-- Lookup of the just-inserted key. -/
lemma storeLookup_insert_self {s : Store} {k v : String} :
    storeLookup (storeInsert k v s) k = some v := by
  simp [storeInsert, storeLookup]

/-- Lookup of another key after an insertion. -/
lemma storeLookup_insert_ne {s : Store} {k v k2 : String} (h : k ≠ k2) :
    storeLookup (storeInsert k v s) k2 = storeLookup s k2 := by
  simp only [storeInsert, storeLookup, if_neg h]
  exact storeLookup_erase_ne (fun hh => h hh.symm)

/-- Extending by bindings that do not mention a key leaves its lookup
unchanged. -/
lemma storeExtend_lookup_none {kvs : Store} :
    ∀ {st : Store} {k : String}, storeLookup kvs k = none →
      storeLookup (storeExtend st kvs) k = storeLookup st k := by
  induction kvs with
  | nil => intro st k _; rfl
  | cons kv t ih =>
    intro st k h
    obtain ⟨k1, v1⟩ := kv
    simp only [storeLookup] at h
    by_cases h1 : k1 = k
    · rw [if_pos h1] at h; cases h
    · rw [if_neg h1] at h
      show storeLookup (storeExtend (storeInsert k1 v1 st) t) k = _
      rw [ih h, storeLookup_insert_ne h1]

/-- Extension preserves the presence of a key. -/
lemma storeExtend_isSome_mono {kvs : Store} :
    ∀ {st : Store} {k : String}, (storeLookup st k).isSome →
      (storeLookup (storeExtend st kvs) k).isSome := by
  induction kvs with
  | nil => intro st k h; exact h
  | cons kv t ih =>
    intro st k h
    obtain ⟨k1, v1⟩ := kv
    show (storeLookup (storeExtend (storeInsert k1 v1 st) t) k).isSome
    apply ih
    by_cases h1 : k1 = k
    · subst h1; rw [storeLookup_insert_self]; rfl
    · rw [storeLookup_insert_ne h1]; exact h

/-- Every key of the extending bindings is present after the extension. -/
lemma storeExtend_isSome_of_mem {kvs : Store} :
    ∀ {st : Store} {k : String}, k ∈ kvs.map Prod.fst →
      (storeLookup (storeExtend st kvs) k).isSome := by
  induction kvs with
  | nil => intro st k h; cases h
  | cons kv t ih =>
    intro st k h
    obtain ⟨k1, v1⟩ := kv
    show (storeLookup (storeExtend (storeInsert k1 v1 st) t) k).isSome
    rcases List.mem_cons.mp h with h1 | h1
    · subst h1
      apply storeExtend_isSome_mono
      rw [storeLookup_insert_self]; rfl
    · exact ih h1

/-- A key present in a store has a value. -/
lemma storeLookup_isSome_of_mem {s : Store} {k : String}
    (h : k ∈ s.map Prod.fst) : (storeLookup s k).isSome := by
  induction s with
  | nil => cases h
  | cons kv t ih =>
    obtain ⟨k1, v1⟩ := kv
    simp only [storeLookup]
    by_cases h1 : k1 = k
    · rw [if_pos h1]; rfl
    · rw [if_neg h1]
      rcases List.mem_cons.mp h with h2 | h2
      · exact absurd h2.symm h1
      · exact ih h2

/-- Erasure keeps membership of other keys. -/
lemma mem_keys_storeErase {s : Store} {k k2 : String} (hne : k2 ≠ k)
    (h : k2 ∈ s.map Prod.fst) : k2 ∈ (storeErase s k).map Prod.fst := by
  induction s with
  | nil => cases h
  | cons kv t ih =>
    obtain ⟨k1, v1⟩ := kv
    simp only [List.map_cons, List.mem_cons] at h
    by_cases h1 : k1 = k
    · rw [storeErase, if_pos h1]
      rcases h with h2 | h2
      · exact absurd (h2.trans h1) hne
      · exact h2
    · rw [storeErase, if_neg h1]
      simp only [List.map_cons, List.mem_cons]
      rcases h with h2 | h2
      · exact Or.inl h2
      · exact Or.inr (ih h2)

/-- The erased store is a sublist of the store. -/
lemma storeErase_sublist (s : Store) (k : String) : (storeErase s k).Sublist s := by
  induction s with
  | nil => simp [storeErase]
  | cons kv t ih =>
    obtain ⟨k1, v1⟩ := kv
    by_cases h1 : k1 = k
    · simp only [storeErase, if_pos h1]
      exact List.sublist_cons_self _ _
    · simp only [storeErase, if_neg h1]
      exact ih.cons₂ _

/-- Erasure preserves distinctness of keys. -/
lemma nodup_keys_storeErase {s : Store} {k : String}
    (h : (s.map Prod.fst).Nodup) : ((storeErase s k).map Prod.fst).Nodup :=
  ((storeErase_sublist s k).map Prod.fst).nodup h

/-- With distinct keys, erasing a key is filtering it out. -/
lemma storeErase_eq_filter {s : Store} {k : String}
    (h : (s.map Prod.fst).Nodup) :
    storeErase s k = s.filter (fun kv => kv.1 ≠ k) := by
  induction s with
  | nil => rfl
  | cons kv t ih =>
    obtain ⟨k1, v1⟩ := kv
    simp only [List.map_cons, List.nodup_cons] at h
    by_cases h1 : k1 = k
    · subst h1
      rw [storeErase, if_pos rfl, List.filter_cons]
      have hd : (decide ((k1, v1).1 ≠ k1)) = false := by simp
      rw [hd]
      simp only [Bool.false_eq_true, if_false]
      refine (List.filter_eq_self.mpr ?_).symm
      intro kv hkv
      simp only [decide_eq_true_eq]
      intro heq
      exact h.1 (heq ▸ List.mem_map_of_mem Prod.fst hkv)
    · rw [storeErase, if_neg h1, List.filter_cons]
      have hd : (decide ((k1, v1).1 ≠ k)) = true := by simp [h1]
      rw [hd]
      simp only [if_true]
      rw [ih h.2]

/-- Erasing an absent query id leaves the table unchanged. -/
lemma queryErase_of_lookup_none {l : List (Int × QueryType)} {q : Int}
    (h : queryLookup l q = none) : queryErase l q = l := by
  induction l with
  | nil => rfl
  | cons qt rest ih =>
    obtain ⟨q2, t⟩ := qt
    simp only [queryLookup] at h
    by_cases h2 : q2 = q
    · rw [if_pos h2] at h; cases h
    · rw [if_neg h2] at h
      rw [queryErase, if_neg h2, ih h]

/-- A query id absent from the keys has no lookup result. -/
lemma queryLookup_none_of_not_mem {l : List (Int × QueryType)} {q : Int}
    (h : q ∉ l.map Prod.fst) : queryLookup l q = none := by
  induction l with
  | nil => rfl
  | cons qt rest ih =>
    obtain ⟨q2, t⟩ := qt
    simp only [List.map_cons, List.mem_cons, not_or] at h
    rw [queryLookup, if_neg (fun hh => h.1 hh.symm)]
    exact ih h.2

/-- With distinct keys, a just-erased query id has no lookup result. -/
lemma queryLookup_erase_self {l : List (Int × QueryType)} {q : Int}
    (h : (l.map Prod.fst).Nodup) : queryLookup (queryErase l q) q = none := by
  induction l with
  | nil => rfl
  | cons qt rest ih =>
    obtain ⟨q2, t⟩ := qt
    simp only [List.map_cons, List.nodup_cons] at h
    by_cases h2 : q2 = q
    · rw [queryErase, if_pos h2]
      exact queryLookup_none_of_not_mem (h2 ▸ h.1)
    · rw [queryErase, if_neg h2, queryLookup, if_neg h2]
      exact ih h.2

/-- The replica-merge fold of Node::transfer_from_replicas. -/
def replicaMerge (min max : Int) (reps : List (Int × Store)) (st : Store) :
    Store :=
  reps.foldl
    (fun s r => if in_range r.1 min max true then storeExtend s r.2 else s) st

/-- The store field after Node::transfer_from_replicas is the replica
merge. -/
lemma transfer_from_replicas_store (n : Node) (min max : Int) :
    (n.transfer_from_replicas min max).store =
      replicaMerge min max n.replica_store n.store := rfl

/-- The replica merge preserves the presence of a key. -/
lemma replicaMerge_isSome_mono {min max : Int} {reps : List (Int × Store)} :
    ∀ {st : Store} {k : String}, (storeLookup st k).isSome →
      (storeLookup (replicaMerge min max reps st) k).isSome := by
  induction reps with
  | nil => intro st k h; exact h
  | cons r rest ih =>
    intro st k h
    show (storeLookup (replicaMerge min max rest _) k).isSome
    by_cases hr : in_range r.1 min max true = true
    · simp only [replicaMerge, List.foldl_cons, if_pos hr]
      exact ih (storeExtend_isSome_mono h)
    · simp only [replicaMerge, List.foldl_cons, if_neg hr]
      exact ih h

/-- Every key of an in-range replica is present after the replica merge. -/
lemma replicaMerge_isSome_of_mem {min max : Int} {reps : List (Int × Store)} :
    ∀ {st : Store} {r : Int} {kvs : Store} {k : String},
      (r, kvs) ∈ reps → in_range r min max true = true →
      k ∈ kvs.map Prod.fst →
      (storeLookup (replicaMerge min max reps st) k).isSome := by
  induction reps with
  | nil => intro st r kvs k h; cases h
  | cons r0 rest ih =>
    intro st r kvs k hmem hr hk
    rcases List.mem_cons.mp hmem with h0 | h0
    · subst h0
      simp only [replicaMerge, List.foldl_cons, if_pos hr]
      exact replicaMerge_isSome_mono (storeExtend_isSome_of_mem hk)
    · simp only [replicaMerge, List.foldl_cons]
      by_cases hr0 : in_range r0.1 min max true = true
      · rw [if_pos hr0]; exact ih h0 hr hk
      · rw [if_neg hr0]; exact ih h0 hr hk

/-- A key mentioned by no in-range replica keeps its lookup across the
replica merge. -/
lemma replicaMerge_lookup_none {min max : Int} {reps : List (Int × Store)} :
    ∀ {st : Store} {k : String},
      (∀ r kvs, (r, kvs) ∈ reps → in_range r min max true = true →
        storeLookup kvs k = none) →
      storeLookup (replicaMerge min max reps st) k = storeLookup st k := by
  induction reps with
  | nil => intro st k _; rfl
  | cons r0 rest ih =>
    intro st k h
    simp only [replicaMerge, List.foldl_cons]
    by_cases hr0 : in_range r0.1 min max true = true
    · rw [if_pos hr0]
      have h0 : storeLookup r0.2 k = none :=
        h r0.1 r0.2 (List.mem_cons_self _ _) hr0
      show storeLookup (replicaMerge min max rest (storeExtend st r0.2)) k = _
      rw [ih (fun r kvs hm hr => h r kvs (List.mem_cons_of_mem _ hm) hr),
          storeExtend_lookup_none h0]
    · rw [if_neg hr0]
      exact ih (fun r kvs hm hr => h r kvs (List.mem_cons_of_mem _ hm) hr)

/-- Removing a list of distinct present keys from a store with distinct
keys yields the values matched to the keys in order and filters exactly
those keys out of the store. -/
lemma extractValues_spec :
    ∀ (ks : List String) (s : Store),
      (s.map Prod.fst).Nodup → ks.Nodup → (∀ k ∈ ks, k ∈ s.map Prod.fst) →
      (extractValues ks s).1.length = ks.length ∧
      (∀ (i : Nat) (k : String), ks[i]? = some k →
        ∃ v, (extractValues ks s).1[i]? = some v ∧ storeLookup s k = some v) ∧
      (extractValues ks s).2 = s.filter (fun kv => decide (kv.1 ∉ ks)) := by
  intro ks
  induction ks with
  | nil =>
    intro s _ _ _
    refine ⟨rfl, ?_, ?_⟩
    · intro i k h
      simp at h
    · show s = _
      refine (List.filter_eq_self.mpr ?_).symm
      intro kv _
      simp
  | cons k ks ih =>
    intro s hs hnd hmem
    have hnd2 := List.nodup_cons.mp hnd
    have hk : k ∈ s.map Prod.fst := hmem k (List.mem_cons_self _ _)
    have hsome := storeLookup_isSome_of_mem hk
    obtain ⟨v, hv⟩ := Option.isSome_iff_exists.mp hsome
    have hrec := ih (storeErase s k) (nodup_keys_storeErase hs) hnd2.2
      (fun k2 hk2 =>
        mem_keys_storeErase (fun hh => hnd2.1 (hh ▸ hk2))
          (hmem k2 (List.mem_cons_of_mem _ hk2)))
    simp only [extractValues, hv]
    refine ⟨by simp [hrec.1], ?_, ?_⟩
    · intro i k2 hi
      match i with
      | 0 =>
        simp only [List.getElem?_cons_zero] at hi
        cases hi
        exact ⟨v, by simp, hv⟩
      | Nat.succ i2 =>
        simp only [List.getElem?_cons_succ] at hi
        obtain ⟨v2, hv2, hl2⟩ := hrec.2.1 i2 k2 hi
        refine ⟨v2, by simpa using hv2, ?_⟩
        have hne : k2 ≠ k := by
          intro hh
          exact hnd2.1 (hh ▸ List.getElem?_mem hi)
        rw [← storeLookup_erase_ne hne]
        exact hl2
    · rw [hrec.2.2, storeErase_eq_filter hs, List.filter_filter]
      refine List.filter_congr ?_
      intro kv _
      by_cases h1 : kv.1 = k <;> by_cases h2 : kv.1 ∈ ks <;>
        simp [h1, h2]

/-- Updating a list at a positive index keeps the head. -/
lemma listModify_succ_head? {α : Type} (f : α → α) (k : Nat) (l : List α) :
    (listModify f (k + 1) l).head? = l.head? := by
  cases l <;> rfl

/-- A completed set_successor establishes the head invariant. -/
lemma heads_of_set_successor? {n n' : Node} {succ : NodeEntry}
    (h : n.set_successor? succ = some n') :
    n'.finger_table.head?.map FingerEntry.node = some n'.successor ∧
    n'.successor_list.head?.map SuccessorEntry.node = some n'.successor := by
  rcases hft : n.finger_table with _ | ⟨f, ft⟩ <;>
    rcases hsl : n.successor_list with _ | ⟨s, sl⟩ <;>
      simp only [Node.set_successor?, hft, hsl] at h <;> cases h
  exact ⟨rfl, rfl⟩

/-- set_successor does not touch the pending-query table. -/
lemma set_successor?_queries {n n' : Node} {succ : NodeEntry}
    (h : n.set_successor? succ = some n') :
    n'.current_queries = n.current_queries := by
  rcases hft : n.finger_table with _ | ⟨f, ft⟩ <;>
    rcases hsl : n.successor_list with _ | ⟨s, sl⟩ <;>
      simp only [Node.set_successor?, hft, hsl] at h <;> cases h
  rfl

/-- set_finger does not touch the pending-query table. -/
lemma set_finger?_queries {n n' : Node} {i : Int} {node : NodeEntry}
    (h : n.set_finger? i node = some n') :
    n'.current_queries = n.current_queries := by
  rw [Node.set_finger?] at h
  split at h
  · cases h; rfl
  · cases h

/-- fix_successor does not touch the pending-query table. -/
lemma fix_successor?_queries {n n' : Node} {i : Int} {succ : NodeEntry}
    {b : Bool} (h : n.fix_successor? i succ = some (b, n')) :
    n'.current_queries = n.current_queries := by
  rw [Node.fix_successor?] at h
  split at h
  · cases hg : n.successor_list[i.toNat]? with
    | some entry => rw [hg] at h; cases h; rfl
    | none => rw [hg] at h; cases h
  · cases h

/-- In every reachable state the head of the finger table and the head of
the successor list both carry the active successor. -/
lemma reachable_heads {n : Node} (h : Reachable n) :
    n.finger_table.head?.map FingerEntry.node = some n.successor ∧
    n.successor_list.head?.map SuccessorEntry.node = some n.successor := by
  induction h with
  | init name id tau htau =>
    obtain ⟨t, rfl⟩ : ∃ t, tau = t + 1 := ⟨tau - 1, by omega⟩
    exact ⟨rfl, rfl⟩
  | set_successor succ _ hstep => exact heads_of_set_successor? hstep
  | @stabilize_successor n n' pid pname _ hstep ih =>
    by_cases hc : in_range pid n.id.id n.successor.id false = true
    · rw [Node.stabilize_successor?, if_pos hc] at hstep
      exact heads_of_set_successor? hstep
    · rw [Node.stabilize_successor?, if_neg hc] at hstep
      cases hstep
      exact ih
  | @successor_failure n n' _ hstep ih =>
    rcases hsl : n.successor_list with _ | ⟨e, rest⟩
    · simp only [Node.successor_failure?, hsl] at hstep
      cases hstep
    · rcases rest with _ | ⟨r, rs⟩
      · simp only [Node.successor_failure?, hsl, List.nil_append,
          List.head?_cons] at hstep
        exact heads_of_set_successor? hstep
      · simp only [Node.successor_failure?, hsl, List.cons_append,
          List.head?_cons] at hstep
        exact heads_of_set_successor? hstep
  | @set_finger n n' i node hi _ hstep ih =>
    rw [Node.set_finger?] at hstep
    split at hstep
    · cases hstep
      obtain ⟨k, hk⟩ : ∃ k, i.toNat = k + 1 := ⟨i.toNat - 1, by omega⟩
      refine ⟨?_, ih.2⟩
      show (listModify _ i.toNat n.finger_table).head?.map FingerEntry.node =
        some n.successor
      rw [hk, listModify_succ_head?]
      exact ih.1
    · cases hstep
  | @fix_successor n n' i succ b hi _ hstep ih =>
    rw [Node.fix_successor?] at hstep
    split at hstep
    · cases hg : n.successor_list[i.toNat]? with
      | some entry =>
        rw [hg] at hstep
        cases hstep
        obtain ⟨k, hk⟩ : ∃ k, i.toNat = k + 1 := ⟨i.toNat - 1, by omega⟩
        refine ⟨ih.1, ?_⟩
        show (listModify _ i.toNat n.successor_list).head?.map SuccessorEntry.node =
          some n.successor
        rw [hk, listModify_succ_head?]
        exact ih.2
      | none => rw [hg] at hstep; cases hstep
    · cases hstep

/-- Reachable states have nonempty finger table and successor list. -/
lemma reachable_ne_nil {n : Node} (h : Reachable n) :
    n.finger_table ≠ [] ∧ n.successor_list ≠ [] := by
  obtain ⟨h1, h2⟩ := reachable_heads h
  constructor
  · intro he; rw [he] at h1; cases h1
  · intro he; rw [he] at h2; cases h2

/-- set_successor completes on nonempty finger table and successor list. -/
lemma set_successor?_isSome {n : Node} {succ : NodeEntry}
    (h1 : n.finger_table ≠ []) (h2 : n.successor_list ≠ []) :
    (n.set_successor? succ).isSome := by
  rcases hft : n.finger_table with _ | ⟨f, ft⟩
  · exact absurd hft h1
  · rcases hsl : n.successor_list with _ | ⟨s, sl⟩
    · exact absurd hsl h2
    · simp [Node.set_successor?, hft, hsl]

/-- successor_failure completes on nonempty finger table and successor
list. -/
lemma successor_failure?_isSome {n : Node}
    (h1 : n.finger_table ≠ []) (h2 : n.successor_list ≠ []) :
    (n.successor_failure?).isSome := by
  rcases hsl : n.successor_list with _ | ⟨e, rest⟩
  · exact absurd hsl h2
  · rcases rest with _ | ⟨r, rs⟩ <;>
      simp only [Node.successor_failure?, hsl, List.nil_append,
        List.cons_append, List.head?_cons]
    · exact set_successor?_isSome h1 (by simp)
    · exact set_successor?_isSome h1 (by simp)

/-! Claim theorems. -/

/-- C1: in every state reachable from Node initialization with tau at
least one by set_successor, stabilize_successor, successor_failure,
set_finger with index at least one, and fix_successor with index at least
one, the successor equals the node of finger table entry 0 and the node of
successor list entry 0. -/
theorem successor_invariant_reachable (n : Node) (h : Reachable n) :
    n.finger_table[0]?.map FingerEntry.node = some n.successor ∧
    n.successor_list[0]?.map SuccessorEntry.node = some n.successor := by
  obtain ⟨h1, h2⟩ := reachable_heads h
  rw [getElem?_zero_eq_head?, getElem?_zero_eq_head?]
  exact ⟨h1, h2⟩

/-- Witness for C1 at a concrete freshly initialized node. -/
theorem successor_invariant_reachable_witness :
    (Node.new M "n1" 5 1).finger_table[0]?.map FingerEntry.node =
      some (Node.new M "n1" 5 1).successor ∧
    (Node.new M "n1" 5 1).successor_list[0]?.map SuccessorEntry.node =
      some (Node.new M "n1" 5 1).successor :=
  successor_invariant_reachable _ (Reachable.init "n1" 5 1 (by decide))

/-- C5 counterexample: the claimed law that in_range of the lower endpoint
with the upper bound exclusive is always false fails when the two interval
endpoints coincide, because equal endpoints denote the whole ring. -/
theorem in_range_law_counterexample :
    in_range 0 0 0 false = true ∧ in_range 0 0 0 false ≠ false := by
  decide

/-- C5 (amended): the three-case description of in_range holds for all
integers, the law that equal endpoints accept everything holds, the law
that the lower endpoint is excluded holds whenever the two endpoints
differ, and the law that an inclusive upper endpoint is accepted holds. -/
theorem in_range_spec :
    (∀ (id min max : Int) (incl : Bool), min < max →
      (in_range id min max incl = true ↔
        ((min < id ∧ id < max) ∨ (incl = true ∧ id = max)))) ∧
    (∀ (id min max : Int) (incl : Bool), max < min →
      (in_range id min max incl = true ↔
        ((id > min ∨ id < max) ∨ (incl = true ∧ id = max)))) ∧
    (∀ (x a : Int) (incl : Bool), in_range x a a incl = true) ∧
    (∀ a b : Int, a ≠ b → in_range a a b false = false) ∧
    (∀ a b : Int, in_range b a b true = true) := by
  refine ⟨?_, ?_, ?_, ?_, ?_⟩
  · intro id min max incl h
    rw [in_range, if_pos h]
    cases incl <;> simp <;> omega
  · intro id min max incl h
    have h1 : ¬ min < max := by omega
    rw [in_range, if_neg h1, if_pos h]
    cases incl <;> simp <;> omega
  · intro x a incl
    exact in_range_self_self x a incl
  · intro a b hne
    rcases lt_trichotomy a b with h | h | h
    · rw [in_range, if_pos h]; simp
    · exact absurd h hne
    · have h1 : ¬ a < b := by omega
      rw [in_range, if_neg h1, if_pos h]
      simp
      omega
  · intro a b
    rcases lt_trichotomy a b with h | h | h
    · rw [in_range, if_pos h]; simp; omega
    · subst h; exact in_range_self_self a a true
    · have h1 : ¬ a < b := by omega
      rw [in_range, if_neg h1, if_pos h]
      simp

/-- Witness for C5 at concrete inputs. -/
theorem in_range_spec_witness :
    in_range 0 0 1 false = false ∧ in_range 1 0 1 true = true :=
  ⟨in_range_spec.2.2.2.1 0 1 (by decide), in_range_spec.2.2.2.2 0 1⟩

/-- C4: find_predecessor answers true with the node itself exactly when
the queried id is in the clockwise interval from the node id to the
successor id with inclusive upper bound; with equal successor and node id
it answers true for every query; otherwise it answers false with the
qualifying finger of highest index, scanning M-1 down to 0, or the node
itself when no finger qualifies. -/
theorem find_predecessor_spec (n : Node) (id : Int) :
    ((n.find_predecessor id).1 = true ↔
      in_range id n.id.id n.successor.id true = true) ∧
    (n.successor.id = n.id.id →
      n.find_predecessor id = (true, NodeEntry.new n.id.id n.id.node_name)) ∧
    (in_range id n.id.id n.successor.id true = true →
      n.find_predecessor id = (true, NodeEntry.new n.id.id n.id.node_name)) ∧
    (in_range id n.id.id n.successor.id true = false →
      n.find_predecessor id = (false, n.closest_preceding_finger id) ∧
      ((∀ i, i < M → ∀ f, n.finger_table[i]? = some f →
          in_range f.node.id n.id.id id false = false) →
        n.closest_preceding_finger id = NodeEntry.new n.id.id n.id.node_name) ∧
      (∀ i, i < M → ∀ f, n.finger_table[i]? = some f →
        in_range f.node.id n.id.id id false = true →
        ∃ j, j < M ∧ ∃ g, n.finger_table[j]? = some g ∧
          in_range g.node.id n.id.id id false = true ∧
          n.closest_preceding_finger id =
            NodeEntry.new g.node.id g.node.node_name ∧
          ∀ j2, j < j2 → j2 < M → ∀ g2, n.finger_table[j2]? = some g2 →
            in_range g2.node.id n.id.id id false = false)) := by
  refine ⟨?_, ?_, ?_, ?_⟩
  · cases hc : in_range id n.id.id n.successor.id true <;>
      simp [Node.find_predecessor, hc]
  · intro hs
    have hc : in_range id n.id.id n.successor.id true = true := by
      rw [hs]; exact in_range_self_self id n.id.id true
    simp [Node.find_predecessor, hc]
  · intro hc
    simp [Node.find_predecessor, hc]
  · intro hc
    refine ⟨by simp [Node.find_predecessor, hc], ?_, ?_⟩
    · intro hall
      simp only [Node.closest_preceding_finger, cpfScan_eq_none hall]
    · intro i hi f hf hfr
      cases he : cpfScan n.finger_table n.id.id id M with
      | none => exact absurd (cpfScan_none he i hi f hf) (by simp [hfr])
      | some e =>
        obtain ⟨j, hj, g, hg, hgr, heq, hmax⟩ := cpfScan_some he
        refine ⟨j, hj, g, hg, hgr, ?_, hmax⟩
        simp only [Node.closest_preceding_finger, he]
        rw [heq]

/-- Witness for C4 at a concrete solo node, whose successor equals
itself. -/
theorem find_predecessor_spec_witness :
    (Node.new M "a" 0 1).find_predecessor 7 = (true, NodeEntry.new 0 "a") :=
  (find_predecessor_spec (Node.new M "a" 0 1) 7).2.1 rfl

/-- C10: with an empty peer list the successor-list length is zero and the
node starts with an empty successor list, so set_successor (reachable on a
solo ring through stabilize_successor, whose range test with equal
endpoints always passes) and successor_failure abort on the index-zero
access; with tau at least one, every such access of these operations on
reachable states stays in bounds. -/
theorem tau_zero_out_of_bounds :
    tauOfPeers [] = 0 ∧
    (∀ (name : String) (id : Int),
      (Node.new M name id (tauOfPeers [])).successor_list = []) ∧
    (∀ (name : String) (id : Int) (succ : NodeEntry),
      (Node.new M name id 0).set_successor? succ = none) ∧
    (∀ (name : String) (id pid : Int) (pname : String),
      (Node.new M name id 0).stabilize_successor? pid pname = none) ∧
    (∀ (name : String) (id : Int),
      (Node.new M name id 0).successor_failure? = none) ∧
    (∀ n, Reachable n →
      (∀ succ, (n.set_successor? succ).isSome) ∧
      (n.successor_failure?).isSome ∧
      (∀ pid pname, (n.stabilize_successor? pid pname).isSome)) := by
  have htau : tauOfPeers [] = 0 := Nat.clog_one_right 2
  refine ⟨htau, ?_, ?_, ?_, ?_, ?_⟩
  · intro name id
    rw [htau]
    rfl
  · intro name id succ
    rfl
  · intro name id pid pname
    have hc : in_range pid (Node.new M name id 0).id.id
        (Node.new M name id 0).successor.id false = true :=
      in_range_self_self pid id false
    rw [Node.stabilize_successor?, if_pos hc]
    rfl
  · intro name id
    rfl
  · intro n h
    obtain ⟨h1, h2⟩ := reachable_ne_nil h
    refine ⟨fun succ => set_successor?_isSome h1 h2,
      successor_failure?_isSome h1 h2, ?_⟩
    intro pid pname
    by_cases hc : in_range pid n.id.id n.successor.id false = true
    · rw [Node.stabilize_successor?, if_pos hc]
      exact set_successor?_isSome h1 h2
    · rw [Node.stabilize_successor?, if_neg hc]
      rfl

/-- Witness for C10 at a concrete reachable node with tau one. -/
theorem tau_zero_out_of_bounds_witness :
    ((Node.new M "w" 3 1).successor_failure?).isSome :=
  (tau_zero_out_of_bounds.2.2.2.2.2 _ (Reachable.init "w" 3 1 (by decide))).2.1

/-- C3 counterexample: successor_failure does not mark the moved entry as
failed. On a node whose head successor entry has a cleared failed flag
(as set_successor always leaves it), the entry moved to
last_failed_successor still carries failed equal to false, while the claim
requires it to be marked failed. -/
theorem successor_failure_counterexample :
    (((Node.new M "a" 0 2).set_successor? (NodeEntry.new 5 "b")).bind
        Node.successor_failure?).map
      (fun n2 => n2.last_failed_successor.map SuccessorEntry.failed) =
      some (some false) ∧
    (((Node.new M "a" 0 2).set_successor? (NodeEntry.new 5 "b")).bind
        Node.successor_failure?).map
      (fun n2 => n2.last_failed_successor.map SuccessorEntry.failed) ≠
      some (some true) := by
  decide

/-- Computation of successor_failure on a nonempty successor list and
finger table. -/
lemma successor_failure?_eq {n : Node} {e hd : SuccessorEntry}
    {rest tl : List SuccessorEntry} {f0 : FingerEntry}
    {ftr : List FingerEntry}
    (hsl : n.successor_list = e :: rest) (hftbl : n.finger_table = f0 :: ftr)
    (hht : rest ++ [SuccessorEntry.new n.id.id n.id.node_name] = hd :: tl) :
    n.successor_failure? = some { n with
      last_failed_successor := some e
      finger_table := { f0 with node := hd.node } :: ftr
      successor_list := { node := hd.node, failed := false } :: tl
      successor := hd.node } := by
  simp only [Node.successor_failure?, hsl, hht, List.head?_cons,
    Node.set_successor?, hftbl]
  rfl

/-- C3 (amended): successor_failure moves the current head successor
entry, with its failed flag unchanged rather than marked failed, to
last_failed_successor, shifts the successor list left by one, appends a
fresh self-entry at the tail, and activates the new head (the former
second entry when one exists) as successor, mirrored into finger table
entry 0 and successor list entry 0. -/
theorem successor_failure_spec (n : Node) (e : SuccessorEntry)
    (rest : List SuccessorEntry) (hsl : n.successor_list = e :: rest)
    (hft : n.finger_table ≠ []) :
    ∃ n2, n.successor_failure? = some n2 ∧
      n2.last_failed_successor = some e ∧
      n2.successor_list.length = n.successor_list.length ∧
      (∀ hd tl,
        rest ++ [SuccessorEntry.new n.id.id n.id.node_name] = hd :: tl →
        n2.successor = hd.node ∧
        n2.successor_list = { node := hd.node, failed := false } :: tl ∧
        n2.finger_table.head?.map FingerEntry.node = some hd.node) ∧
      (∀ f t2, rest = f :: t2 → n2.successor = f.node) ∧
      n2.store = n.store ∧ n2.predecessor = n.predecessor ∧ n2.id = n.id := by
  rcases hftbl : n.finger_table with _ | ⟨f0, ftr⟩
  · exact absurd hftbl hft
  · obtain ⟨hd, tl, hht⟩ :
        ∃ hd tl, rest ++ [SuccessorEntry.new n.id.id n.id.node_name] =
          hd :: tl := by
      cases rest with
      | nil => exact ⟨_, _, rfl⟩
      | cons r rs => exact ⟨_, _, rfl⟩
    refine ⟨_, successor_failure?_eq hsl hftbl hht, rfl, ?_, ?_, ?_, rfl, rfl, rfl⟩
    · have hlen := congrArg List.length hht
      simp only [List.length_append, List.length_cons, List.length_nil] at hlen
      simp only [List.length_cons, hsl]
      omega
    · intro hd2 tl2 hht2
      rw [hht] at hht2
      cases hht2
      exact ⟨rfl, rfl, rfl⟩
    · intro f t2 hrr
      subst hrr
      simp only [List.cons_append] at hht
      cases hht
      rfl

/-- Witness for C3 at a concrete node with two successor entries. -/
theorem successor_failure_spec_witness :
    ∃ n2, (Node.new M "a" 0 2).successor_failure? = some n2 ∧
      n2.last_failed_successor = some (SuccessorEntry.new 0 "a") := by
  obtain ⟨n2, h1, h2, _⟩ := successor_failure_spec (Node.new M "a" 0 2)
    (SuccessorEntry.new 0 "a") [SuccessorEntry.new 0 "a"] rfl (by decide)
  exact ⟨n2, h1, h2⟩

/-- C7: below the failure threshold, with a successor other than this
node, ping_successor counts one missed ping and emits exactly one ping to
the successor; at the threshold it rotates the successor list through
successor_failure, emits exactly one notify to the new successor carrying
this node id and the failed flag, and resets the missed-ping count. -/
theorem ping_successor_spec (h : HandlerInner) :
    (h.pings < FAILURE_THRESHOLD →
      h.node.get_successor.node_name ≠ h.node_name →
      h.ping_successor = some ({ h with pings := h.pings + 1 },
        [Msg.ping h.node_name h.node.get_successor.node_name])) ∧
    (FAILURE_THRESHOLD ≤ h.pings →
      ∀ n2, h.node.successor_failure? = some n2 →
        h.ping_successor = some ({ h with node := n2, pings := 0 },
          [Msg.notify h.node_name n2.get_successor.node_name
            n2.get_id true])) := by
  constructor
  · intro h1 h2
    simp only [HandlerInner.ping_successor]
    rw [if_pos h1, if_pos h2]
  · intro h1 n2 hsf
    simp only [HandlerInner.ping_successor]
    rw [if_neg (not_lt.mpr h1)]
    simp only [hsf]

/-- Witness for C7 at two concrete handler states, one below and one at
the failure threshold. -/
theorem ping_successor_spec_witness :
    (HandlerInner.ping_successor
      ⟨false, "a", [],
        { Node.new M "a" 0 2 with successor := NodeEntry.new 5 "b" }, 0⟩).isSome ∧
    (HandlerInner.ping_successor
      ⟨false, "a", [], Node.new M "a" 0 2, 2⟩).isSome := by
  constructor
  · rw [(ping_successor_spec _).1 (by decide) (by decide)]
    rfl
  · cases hsf : (Node.new M "a" 0 2).successor_failure? with
    | none => exact absurd hsf (by decide)
    | some n2 =>
      rw [(ping_successor_spec _).2 (by decide) n2 hsf]
      rfl

/-- C8: the retrieve handler answers a present key with exactly one
success response carrying the stored value and an absent key with exactly
one failure response whose error text is No such key followed by the
key. -/
theorem retrieve_spec (h : HandlerInner) (idv : Int) (k : String) :
    (∀ v, h.node.get k = some v →
      h.handle_retrieve idv k = (h, [Msg.getSuccessResponse idv k v])) ∧
    (h.node.get k = none →
      h.handle_retrieve idv k =
        (h, [Msg.getFailResponse idv ("No such key: " ++ k)])) := by
  constructor
  · intro v hv
    simp only [HandlerInner.handle_retrieve, hv]
  · intro hv
    simp only [HandlerInner.handle_retrieve, hv, GetFailResponse.new]

/-- Witness for C8: a get with id 3 for the key banana on a node not
storing banana yields the error No such key: banana. -/
theorem retrieve_spec_witness :
    HandlerInner.handle_retrieve
        ⟨true, "a", [],
          { Node.new M "a" 0 1 with store := [("apple", "red")] }, 0⟩
        3 "banana" =
      (⟨true, "a", [],
          { Node.new M "a" 0 1 with store := [("apple", "red")] }, 0⟩,
       [Msg.getFailResponse 3 "No such key: banana"]) := by
  rw [(retrieve_spec _ 3 "banana").2 (by decide)]
  rfl

/-- A findSuccResponse whose query id has no pending entry changes nothing
and emits nothing. -/
lemma hfsr_of_lookup_none {h : HandlerInner} {nn : String} {nid q : Int}
    {idv : Option Int} (hl : queryLookup h.node.current_queries q = none) :
    h.handle_find_succ_response nn nid q idv = some (h, []) := by
  simp only [HandlerInner.handle_find_succ_response, Node.pop_query, hl,
    queryErase_of_lookup_none hl]

/-- C9: a findSuccResponse with an unknown query id leaves the handler
state unchanged and emits no messages; and since handling always removes
the matching pending-query record, a second findSuccResponse with the
same query id after a completed one changes nothing and emits nothing. -/
theorem find_succ_response_unknown_query (h : HandlerInner) (nn : String)
    (nid q : Int) (idv : Option Int) :
    (queryLookup h.node.current_queries q = none →
      h.handle_find_succ_response nn nid q idv = some (h, [])) ∧
    ((h.node.current_queries.map Prod.fst).Nodup →
      ∀ h2 msgs, h.handle_find_succ_response nn nid q idv = some (h2, msgs) →
        ∀ (nn2 : String) (nid2 : Int) (idv2 : Option Int),
          h2.handle_find_succ_response nn2 nid2 q idv2 = some (h2, [])) := by
  constructor
  · exact hfsr_of_lookup_none
  · intro hnd h2 msgs hstep nn2 nid2 idv2
    have hq : h2.node.current_queries = queryErase h.node.current_queries q := by
      simp only [HandlerInner.handle_find_succ_response, Node.pop_query] at hstep
      cases hl : queryLookup h.node.current_queries q with
      | none =>
        simp only [hl] at hstep
        cases hstep
        rfl
      | some qt =>
        simp only [hl] at hstep
        cases qt with
        | JoinAck =>
          cases hss : Node.set_successor?
              { h.node with current_queries := queryErase h.node.current_queries q }
              (NodeEntry.new nid nn) with
          | some node2 =>
            simp only [hss] at hstep
            cases hstep
            rw [set_successor?_queries hss]
          | none =>
            simp only [hss] at hstep
            cases hstep
        | FixFinger =>
          cases idv with
          | some i =>
            cases hsf : Node.set_finger?
                { h.node with current_queries := queryErase h.node.current_queries q }
                i (NodeEntry.new nid nn) with
            | some node2 =>
              simp only [hsf] at hstep
              cases hstep
              rw [set_finger?_queries hsf]
            | none =>
              simp only [hsf] at hstep
              cases hstep
          | none =>
            cases hstep
            rfl
        | Get k =>
          cases idv with
          | some i =>
            cases hstep
            rfl
          | none =>
            cases hstep
            rfl
        | Set k v =>
          cases hstep
          rfl
        | FixSuccessor =>
          cases idv with
          | some i =>
            cases hfx : Node.fix_successor?
                { h.node with current_queries := queryErase h.node.current_queries q }
                i (NodeEntry.new nid nn) with
            | some br =>
              obtain ⟨b, node2⟩ := br
              simp only [hfx] at hstep
              cases b with
              | true =>
                cases hstep
                rw [fix_successor?_queries hfx]
              | false =>
                cases hstep
                rw [fix_successor?_queries hfx]
            | none =>
              simp only [hfx] at hstep
              cases hstep
          | none =>
            cases hstep
            rfl
    apply hfsr_of_lookup_none
    rw [hq]
    exact queryLookup_erase_self hnd

/-- Witness for C9 at a concrete handler with an empty pending-query
table. -/
theorem find_succ_response_unknown_query_witness :
    HandlerInner.handle_find_succ_response
        ⟨true, "a", [], Node.new M "a" 0 1, 0⟩ "b" 5 9 none =
      some (⟨true, "a", [], Node.new M "a" 0 1, 0⟩, []) :=
  (find_succ_response_unknown_query _ "b" 5 9 none).1 (by decide)

/-- Computation of stabilize_predecessor on the failed branch. -/
lemma stabilize_predecessor_failed_eq {n : Node} {pred : NodeEntry}
    {nid : Int} {nn : String} (hp : n.predecessor = some pred) :
    n.stabilize_predecessor nid nn true =
      ({ n.transfer_from_replicas nid pred.id with
          predecessor := some (NodeEntry.new nid nn) },
       TransferType.Duplicate) := by
  simp only [Node.stabilize_predecessor, hp]
  rw [if_pos trivial]

/-- C2: stabilize_predecessor installs the notifier and asks the successor
for its range when there was no predecessor; on a failure claim it merges
every replica whose owner id is in the clockwise interval from the
notifier to the old predecessor with inclusive upper bound into the
primary store, installs the notifier, and directs Duplicate; on a strictly
closer notifier it installs it and directs Send of the vacated range when
the notifier name differs from this node, Nothing when it is this node;
otherwise it changes nothing and directs Nothing. -/
theorem stabilize_predecessor_spec (n : Node) (nid : Int) (nn : String)
    (failed : Bool) :
    (n.predecessor = none →
      n.stabilize_predecessor nid nn failed =
        ({ n with predecessor := some (NodeEntry.new nid nn) },
         TransferType.Get nid n.id.id)) ∧
    (∀ pred, n.predecessor = some pred → failed = true →
      (n.stabilize_predecessor nid nn failed).2 = TransferType.Duplicate ∧
      (n.stabilize_predecessor nid nn failed).1.predecessor =
        some (NodeEntry.new nid nn) ∧
      (∀ r kvs, (r, kvs) ∈ n.replica_store →
        in_range r nid pred.id true = true →
        ∀ k, k ∈ kvs.map Prod.fst →
          (storeLookup (n.stabilize_predecessor nid nn failed).1.store
            k).isSome) ∧
      (∀ k, (∀ r kvs, (r, kvs) ∈ n.replica_store →
          in_range r nid pred.id true = true → storeLookup kvs k = none) →
        storeLookup (n.stabilize_predecessor nid nn failed).1.store k =
          storeLookup n.store k)) ∧
    (∀ pred, n.predecessor = some pred → failed = false →
      in_range nid pred.id n.id.id false = true →
      (n.stabilize_predecessor nid nn failed).1.predecessor =
        some (NodeEntry.new nid nn) ∧
      (n.stabilize_predecessor nid nn failed).1.store = n.store ∧
      (nn ≠ n.id.node_name →
        (n.stabilize_predecessor nid nn failed).2 =
          TransferType.Send pred.id nid nn) ∧
      (nn = n.id.node_name →
        (n.stabilize_predecessor nid nn failed).2 = TransferType.Nothing)) ∧
    (∀ pred, n.predecessor = some pred → failed = false →
      in_range nid pred.id n.id.id false = false →
      n.stabilize_predecessor nid nn failed = (n, TransferType.Nothing)) := by
  refine ⟨?_, ?_, ?_, ?_⟩
  · intro hp
    simp only [Node.stabilize_predecessor, hp, Node.set_predecessor]
    rfl
  · intro pred hp hf
    subst hf
    rw [stabilize_predecessor_failed_eq hp]
    refine ⟨rfl, rfl, ?_, ?_⟩
    · intro r kvs hmem hr k hk
      show (storeLookup (n.transfer_from_replicas nid pred.id).store k).isSome
      rw [transfer_from_replicas_store]
      exact replicaMerge_isSome_of_mem hmem hr hk
    · intro k hnone
      show storeLookup (n.transfer_from_replicas nid pred.id).store k = _
      rw [transfer_from_replicas_store]
      exact replicaMerge_lookup_none hnone
  · intro pred hp hf hc
    subst hf
    have heq : n.stabilize_predecessor nid nn false =
        n.set_predecessor (some (NodeEntry.new nid nn)) := by
      simp only [Node.stabilize_predecessor, hp, hc]
      rw [if_neg Bool.false_ne_true, if_pos trivial]
    rw [heq]
    simp only [Node.set_predecessor, hp, NodeEntry.new]
    by_cases hn : nn ≠ n.id.node_name
    · rw [if_pos hn]
      exact ⟨rfl, rfl, fun _ => rfl, fun hh => absurd hh hn⟩
    · rw [if_neg hn]
      exact ⟨rfl, rfl, fun hh => absurd hh (fun hy => hn hy), fun _ => rfl⟩
  · intro pred hp hf hc
    subst hf
    simp only [Node.stabilize_predecessor, hp, hc]
    rw [if_neg Bool.false_ne_true, if_neg Bool.false_ne_true]

/-- Witness for C2 at a concrete node with no predecessor. -/
theorem stabilize_predecessor_spec_witness :
    Node.stabilize_predecessor
        { Node.new M "a" 0 1 with predecessor := none } 5 "b" false =
      ({ { Node.new M "a" 0 1 with predecessor := none } with
          predecessor := some (NodeEntry.new 5 "b") },
       TransferType.Get 5 0) :=
  (stabilize_predecessor_spec _ 5 "b" false).1 rfl

/-- C6: transfer_kvs_range extracts exactly the stored keys whose hash is
in the clockwise interval from min to max with inclusive upper bound
(every key when min equals max), removes exactly those entries from the
primary store leaving the others in place, and returns keys and values as
matched-order vectors of equal length with the value at each index being
the value stored under the key at that index. -/
theorem transfer_kvs_range_spec (n : Node) (min max : Int)
    (hnd : (n.store.map Prod.fst).Nodup) :
    (n.transfer_kvs_range min max).1.1 =
      (n.store.map Prod.fst).filter
        (fun k => in_range (hash k) min max true) ∧
    (n.transfer_kvs_range min max).1.2.length =
      (n.transfer_kvs_range min max).1.1.length ∧
    (∀ (i : Nat) (k v : String),
      (n.transfer_kvs_range min max).1.1[i]? = some k →
      (n.transfer_kvs_range min max).1.2[i]? = some v →
      storeLookup n.store k = some v) ∧
    (n.transfer_kvs_range min max).2.store =
      n.store.filter (fun kv => !(in_range (hash kv.1) min max true)) ∧
    (min = max →
      (n.transfer_kvs_range min max).2.store = [] ∧
      (n.transfer_kvs_range min max).1.1 = n.store.map Prod.fst) ∧
    (n.transfer_kvs_range min max).2.replica_store = n.replica_store ∧
    (n.transfer_kvs_range min max).2.successor_list = n.successor_list ∧
    (n.transfer_kvs_range min max).2.predecessor = n.predecessor := by
  have hks : ((n.store.map Prod.fst).filter
      (fun k => in_range (hash k) min max true)).Nodup :=
    hnd.filter _
  have hsub : ∀ k ∈ (n.store.map Prod.fst).filter
      (fun k => in_range (hash k) min max true), k ∈ n.store.map Prod.fst :=
    fun k hk => List.mem_of_mem_filter hk
  have hspec := extractValues_spec _ n.store hnd hks hsub
  have h4 : (n.transfer_kvs_range min max).2.store =
      n.store.filter (fun kv => !(in_range (hash kv.1) min max true)) := by
    show (extractValues _ n.store).2 = _
    rw [hspec.2.2]
    refine List.filter_congr ?_
    intro kv hkv
    cases hp : in_range (hash kv.1) min max true
    · have : kv.1 ∉ (n.store.map Prod.fst).filter
          (fun k => in_range (hash k) min max true) := by
        intro hmem
        rw [(List.mem_filter.mp hmem).2] at hp
        cases hp
      simp [this]
    · have : kv.1 ∈ (n.store.map Prod.fst).filter
          (fun k => in_range (hash k) min max true) :=
        List.mem_filter.mpr ⟨List.mem_map_of_mem Prod.fst hkv, hp⟩
      simp [this]
  refine ⟨rfl, hspec.1, ?_, h4, ?_, rfl, rfl, rfl⟩
  · intro i k v hk hv
    obtain ⟨v2, hv2, hl2⟩ := hspec.2.1 i k hk
    have hvv : (n.transfer_kvs_range min max).1.2[i]? = some v2 := hv2
    rw [hv] at hvv
    cases hvv
    exact hl2
  · intro hmm
    subst hmm
    constructor
    · rw [h4]
      have hall : ∀ kv ∈ n.store,
          (!(in_range (hash kv.1) min min true)) = false := by
        intro kv _
        rw [in_range_self_self]
        rfl
      rw [List.filter_congr hall]
      simp
    · show (n.store.map Prod.fst).filter _ = n.store.map Prod.fst
      refine List.filter_eq_self.mpr ?_
      intro k _
      exact in_range_self_self (hash k) min true

/-- Witness for C6 at a concrete node with an empty store. -/
theorem transfer_kvs_range_spec_witness :
    ((Node.new M "a" 0 1).transfer_kvs_range 3 7).1.1 = [] ∧
    ((Node.new M "a" 0 1).transfer_kvs_range 3 7).2.store = [] := by
  have h := transfer_kvs_range_spec (Node.new M "a" 0 1) 3 7 (by decide)
  exact ⟨by rw [h.1]; rfl, by rw [h.2.2.2.1]; rfl⟩

end Chrust
